import Mathlib

/-!
Shallow embedding of the `useUploadKit` upload manager core
(`useUploadKit/index.ts`, `plugin-runner.ts`, `file-operations.ts`,
`utils.ts`, and the built-in validators), together with theorems settling
the specification claims about it.

Conventions of the embedding:
* JavaScript exceptions are modelled with `Except String`.
* Reactive refs become explicit state threading; every operation returns
  the new registry together with the list of emitted core events and the
  list of storage-adapter hook invocations it performed.
* Asynchronous hooks are modelled as pure oracles (function parameters):
  a hook either returns a file or throws a message.
* Nondeterministic fresh-id generation (`Date.now()-Math.random()`) is a
  function parameter supplying the generated identifier.
-/

namespace UploadKit

/-- File status, `UploadStatus` in `types.ts`: waiting | uploading | complete | error. -/
inductive UStatus where
  | waiting
  | uploading
  | complete
  | error
deriving DecidableEq, Repr

/-- File origin, the `source` discriminator: `local` (owns bytes) or `storage` (remote). -/
inductive USource where
  | localSrc
  | storageSrc
deriving DecidableEq, Repr

/-- `FileError` created by `createFileError` in `utils.ts`: the message plus the
`details` fields that are derived from the file (the wall-clock timestamp is omitted). -/
structure FileError where
  message : String
  fileName : String
  fileSize : Nat
deriving DecidableEq, Repr

/-- Storage adapter upload result: at least `{url, storageKey?}` (adapter-specific
extras are not observable by the core beyond these two fields). -/
structure UploadResult where
  url : String
  storageKey : Option String
deriving DecidableEq, Repr

/-- `file.thumbnail = {url, storageKey}` recorded by the thumbnail plugin. -/
structure ThumbnailInfo where
  url : String
  storageKey : Option String
deriving DecidableEq, Repr

/-- The `UploadFile` entity of `types.ts`.  `data` is modelled by the boolean
`hasData` (bytes present or `null`); `meta` is reduced to the `extension` entry,
the only one the core itself writes. -/
structure UFile where
  id : String
  name : String
  size : Nat
  mimeType : String
  status : UStatus
  progressPct : Nat
  hasData : Bool
  source : USource
  remoteUrl : Option String
  storageKey : Option String
  preview : Option String
  thumbnail : Option ThumbnailInfo
  uploadResult : Option UploadResult
  errorInfo : Option FileError
  metaExtension : Option String
deriving DecidableEq, Repr

/-- Payload of a `file:error` emission: the plugin runner's catch emits the raw
thrown value, while `addFile` / `upload` wrap it through `createFileError` first. -/
inductive ErrPayload where
  | raw (msg : String)
  | wrapped (e : FileError)
deriving DecidableEq, Repr

/-- Core events emitted on the mitt bus (only those the claims mention). -/
inductive Event where
  | fileAdded (f : UFile)
  | fileError (f : UFile) (e : ErrPayload)
  | fileRemoved (f : UFile)
  | uploadStart (fs : List UFile)
  | uploadComplete (fs : List UFile)
  | filesUploaded (fs : List UFile)
  | initialFilesLoaded (fs : List UFile)
  | initialFilesError (msg : String)
deriving DecidableEq, Repr

/-- A storage-adapter hook invocation, recording the exact argument passed. -/
inductive AdapterCall where
  | uploadCall (f : UFile)
  | removeCall (f : UFile)
  | getRemoteCall (key : String)
deriving DecidableEq, Repr

/-- `createFileError(file, error)` from `utils.ts`: wraps a thrown value into a
`FileError` carrying the file's name and size. -/
def createFileError (file : UFile) (msg : String) : FileError :=
  { message := msg, fileName := file.name, fileSize := file.size }

/-- `getExtension(fullFileName)` from `utils.ts`: the substring after the last
dot, lower-cased per character (standing in for `toLocaleLowerCase`); throws
`Invalid file name` when there is no dot or the dot is last. -/
def getExtension (fullFileName : String) : Except String String :=
  let positions := (List.range fullFileName.length).filter
    (fun i => fullFileName.toList.get? i = some '.')
  match positions.getLast? with
  | none => .error "Invalid file name"
  | some lastDot =>
      if lastDot = fullFileName.length - 1 then .error "Invalid file name"
      else .ok (String.mk ((fullFileName.toList.drop (lastDot + 1)).map Char.toLower))

/-- Plugin lifecycle stages run through `runPluginStage` (the storage `upload`
stage is excluded there, as in the source's type `Exclude<PluginLifecycleStage, "upload">`). -/
inductive Stage where
  | validate
  | preprocess
  | process
  | complete
deriving DecidableEq, Repr

/-- A hook: receives the file and the `context.files` snapshot, and either
returns a (possibly new) file or throws. -/
def Hook : Type := UFile → List UFile → Except String UFile

/-- A processing plugin: an id plus optional hooks per stage, mirroring
`{id, hooks: {validate?, preprocess?, process?, complete?}}`. -/
structure PluginM where
  pid : String
  validate : Option Hook := none
  preprocess : Option Hook := none
  process : Option Hook := none
  completeHook : Option Hook := none

/-- Select the hook of a plugin for a stage. -/
def PluginM.hookFor (p : PluginM) : Stage → Option Hook
  | .validate => p.validate
  | .preprocess => p.preprocess
  | .process => p.process
  | .complete => p.completeHook

/-- `callPluginHook(hook, stage, file, context)` from `plugin-runner.ts`.
For every stage the source awaits the hook and then returns the *input* `file`
(`await hook(file, context); return file`): the value produced by the hook is
discarded, only a thrown error propagates. -/
def callPluginHook (hook : Hook) (_stage : Stage) (file : UFile)
    (ctxFiles : List UFile) : Except String UFile :=
  match hook file ctxFiles with
  | .error e => .error e
  | .ok _ => .ok file

/-- The plugin loop body of `runPluginStage`: iterate plugins in order; skip
plugins without a hook for the stage; on a throw, emit `file:error` with the
raw error and the current file and return `null`; otherwise adopt the result
(`if (result && currentFile && "id" in result) currentFile = result`). -/
def runStageAux (stage : Stage) (ctxFiles : List UFile) :
    List PluginM → UFile → Option UFile × List Event
  | [], cur => (some cur, [])
  | p :: rest, cur =>
    match p.hookFor stage with
    | none => runStageAux stage ctxFiles rest cur
    | some hook =>
      match callPluginHook hook stage cur ctxFiles with
      | .error e => (none, [Event.fileError cur (.raw e)])
      | .ok result => runStageAux stage ctxFiles rest result

/-- `runPluginStage(stage, file)` from `plugin-runner.ts`, with the registry
snapshot `ctxFiles` standing for `files.value`.  Returns the final current file,
or `none` when a hook threw, together with the events emitted. -/
def runPluginStage (plugins : List PluginM) (stage : Stage) (file : UFile)
    (ctxFiles : List UFile) : Option UFile × List Event :=
  runStageAux stage ctxFiles plugins file

/-- The `LocalUploadFile` literal built at the top of `addFile`:
`{id: `${id}.${ext}`, progress: 0, name, size, status: waiting, mimeType,
data: file, source: local, meta: {extension}}`. -/
def mkLocalFile (genId : String) (ext : String) (name : String) (size : Nat)
    (mime : String) : UFile :=
  { id := genId ++ "." ++ ext
    name := name
    size := size
    mimeType := mime
    status := .waiting
    progressPct := 0
    hasData := true
    source := .localSrc
    remoteUrl := none
    storageKey := none
    preview := none
    thumbnail := none
    uploadResult := none
    errorInfo := none
    metaExtension := some ext }

/-- Result of one `addFile` call: the new registry, the emitted events, and
either the returned file or the thrown error message. -/
structure AddOutcome where
  registry : List UFile
  events : List Event
  result : Except String UFile
deriving Repr

/-- `addFile(file)` from `useUploadKit/index.ts` (auto-upload disabled).
`getExtension` runs before the try block, so an invalid name throws without
touching the registry.  Inside the try: run the `validate` stage (a `null`
result throws `File validation failed`), run `preprocess` (a `null` result
falls back to the validated file), push, emit `file:added`, and return the
*validated* file.  The catch pushes the original file with `status: error`
and the wrapped `FileError`, emits `file:error`, and rethrows. -/
def addFile (plugins : List PluginM) (registry : List UFile) (genId : String)
    (name : String) (size : Nat) (mime : String) : AddOutcome :=
  match getExtension name with
  | .error e => ⟨registry, [], .error e⟩
  | .ok ext =>
    let uploadFile := mkLocalFile genId ext name size mime
    match runPluginStage plugins .validate uploadFile registry with
    | (none, evs) =>
      let err := createFileError uploadFile ("File validation failed for " ++ name)
      let fileWithError := { uploadFile with status := .error, errorInfo := some err }
      ⟨registry ++ [fileWithError],
       evs ++ [Event.fileError fileWithError (.wrapped err)],
       .error ("File validation failed for " ++ name)⟩
    | (some validatedFile, evs) =>
      match runPluginStage plugins .preprocess validatedFile registry with
      | (preOpt, evs2) =>
        let fileToAdd := preOpt.getD validatedFile
        ⟨registry ++ [fileToAdd],
         evs ++ evs2 ++ [Event.fileAdded fileToAdd],
         .ok validatedFile⟩

/-- Result of an `addFiles` batch: registry, events, and the successfully
admitted files in order. -/
structure AddBatchOutcome where
  registry : List UFile
  events : List Event
  admitted : List UFile
deriving Repr

/-- `addFiles(newFiles)`: run `addFile` per source and keep the fulfilled
results (`Promise.allSettled` + filter on `fulfilled`), never aborting the
batch.  The settled calls are sequentialized here. -/
def addFiles (plugins : List PluginM) (registry : List UFile)
    (inputs : List (String × String × Nat × String)) : AddBatchOutcome :=
  match inputs with
  | [] => ⟨registry, [], []⟩
  | (genId, name, size, mime) :: rest =>
    let o := addFile plugins registry genId name size mime
    let b := addFiles plugins o.registry rest
    ⟨b.registry, o.events ++ b.events,
     (match o.result with
      | .ok f => f :: b.admitted
      | .error _ => b.admitted)⟩

/-- The `validate` hook of `ValidatorMaxFiles` (`validators/max-files.ts`) in
its enabled configuration (`maxFiles` defined and finite): pass while
`context.files.length < maxFiles`, otherwise throw. -/
def maxFilesHook (maxFiles : Nat) : Hook := fun file ctxFiles =>
  if ctxFiles.length < maxFiles then .ok file
  else .error ("Maximum number of files (" ++ toString maxFiles ++ ") exceeded")

/-- The `ValidatorMaxFiles` plugin object. -/
def validatorMaxFiles (maxFiles : Nat) : PluginM :=
  { pid := "validator-max-files", validate := some (maxFilesHook maxFiles) }

/-- The `validate` hook of `ValidatorMaxFileSize` (`validators/max-file-size.ts`)
in its enabled configuration: pass while `file.size <= maxFileSize`, otherwise throw. -/
def maxFileSizeHook (maxFileSize : Nat) : Hook := fun file _ =>
  if file.size ≤ maxFileSize then .ok file
  else .error ("File size exceeds the maximum limit of " ++ toString maxFileSize ++ " bytes")

/-- The `ValidatorMaxFileSize` plugin object. -/
def validatorMaxFileSize (maxFileSize : Nat) : PluginM :=
  { pid := "validator-max-file-size", validate := some (maxFileSizeHook maxFileSize) }

/-- Number of registry entries whose status is not `error`. -/
def nonErrorCount (registry : List UFile) : Nat :=
  (registry.filter (fun f => f.status ≠ UStatus.error)).length

/-- Metadata returned by a storage adapter's `getRemoteFile` hook:
`{size, mimeType, remoteUrl, preview?, uploadResult?}`. -/
structure RemoteMeta where
  size : Nat
  mimeType : String
  remoteUrl : String
  preview : Option String
  uploadResult : Option UploadResult
deriving DecidableEq, Repr

/-- A storage adapter (`StoragePlugin.hooks`): each hook is optional, and each
present hook is a pure oracle giving that adapter call's outcome. -/
structure AdapterM where
  uploadHook : Option (UFile → Except String UploadResult) := none
  removeHook : Option (UFile → Except String Unit) := none
  getRemoteHook : Option (String → Except String RemoteMeta) := none

/-- `files.value = files.value.map((f) => f.id === fileId ? {...f, ...patch} : f)`:
the registry-map skeleton shared by `updateFile` and the in-place updates of
`uploadSingleFile` (here with an arbitrary per-file update function). -/
def updateById (registry : List UFile) (fid : String) (g : UFile → UFile) : List UFile :=
  registry.map (fun f => if f.id = fid then g f else f)

/-- Manager state threaded through `upload()`: the registry plus the
`hasEmittedFilesUploaded` latch. -/
structure KitState where
  files : List UFile
  hasEmittedFilesUploaded : Bool
deriving DecidableEq, Repr

/-- The update `{status: "error", error: createFileError(file, new Error("File
processing failed"))}` applied when the `process` stage returns `null`. -/
def processFailSet (file : UFile) : UFile → UFile :=
  fun f => { f with status := .error,
                    errorInfo := some (createFileError file "File processing failed") }

/-- The update `{status: "uploading"}`. -/
def uploadingSet : UFile → UFile := fun f => { f with status := .uploading }

/-- `currentFile?.preview || remoteUrl`: the preview recorded on completion. -/
def previewOf (reg2 : List UFile) (pid : String) (url : String) : Option String :=
  match (reg2.find? (fun f => f.id = pid)).bind (fun f => f.preview) with
  | some pv => some pv
  | none => some url

/-- `currentFile?.thumbnail`: the thumbnail recorded on completion. -/
def thumbOf (reg2 : List UFile) (pid : String) : Option ThumbnailInfo :=
  (reg2.find? (fun f => f.id = pid)).bind (fun f => f.thumbnail)

/-- The completion update `{status: "complete", uploadResult, remoteUrl,
preview, storageKey, thumbnail}` (`storageKey` via `extractStorageKey`). -/
def completeSet (result : UploadResult) (preview : Option String)
    (thumbnail : Option ThumbnailInfo) : UFile → UFile :=
  fun f => { f with status := .complete, uploadResult := some result,
                    remoteUrl := some result.url, preview := preview,
                    storageKey := result.storageKey, thumbnail := thumbnail }

/-- `uploadSingleFile(file)` from `useUploadKit/index.ts`.  Runs the `process`
stage; a `null` result marks the file `error` and returns normally.  Otherwise
the registry entry is swapped when the processed id differs, the file is set
`uploading`, and the storage adapter's `upload` hook is invoked — with the
*original* `file` argument, exactly as in the source (`storagePlugin.hooks.upload(file,
context)`).  A missing storage plugin or upload hook, or an adapter throw, is
returned as a thrown message (the caller's catch handles it).  On success the
file is set `complete` with `uploadResult`, `remoteUrl`, preview fallback,
extracted `storageKey` and current thumbnail.  Progress callbacks are adapter
I/O and are not modelled. -/
def uploadSingleFile (plugins : List PluginM) (storage : Option AdapterM)
    (registry : List UFile) (file : UFile) :
    (List UFile × List Event × List AdapterCall) × Option String :=
  match runPluginStage plugins .process file registry with
  | (none, evs) =>
    ((updateById registry file.id (processFailSet file),
      evs ++ [Event.fileError file
        (.wrapped (createFileError file "File processing failed"))], []), none)
  | (some p, evs) =>
    match storage with
    | none =>
      ((updateById (if p.id ≠ file.id
          then registry.map (fun f => if f.id = file.id then p else f)
          else registry) p.id uploadingSet, evs, []),
       some "Storage plugin with upload hook is required")
    | some a =>
      match a.uploadHook with
      | none =>
        ((updateById (if p.id ≠ file.id
            then registry.map (fun f => if f.id = file.id then p else f)
            else registry) p.id uploadingSet, evs, []),
         some "Storage plugin with upload hook is required")
      | some u =>
        match u file with
        | .error m =>
          ((updateById (if p.id ≠ file.id
              then registry.map (fun f => if f.id = file.id then p else f)
              else registry) p.id uploadingSet, evs, [AdapterCall.uploadCall file]),
           some m)
        | .ok result =>
          ((updateById
              (updateById (if p.id ≠ file.id
                then registry.map (fun f => if f.id = file.id then p else f)
                else registry) p.id uploadingSet)
              p.id
              (completeSet result
                (previewOf (updateById (if p.id ≠ file.id
                  then registry.map (fun f => if f.id = file.id then p else f)
                  else registry) p.id uploadingSet) p.id result.url)
                (thumbOf (updateById (if p.id ≠ file.id
                  then registry.map (fun f => if f.id = file.id then p else f)
                  else registry) p.id uploadingSet) p.id)),
            evs, [AdapterCall.uploadCall file]), none)

/-- The per-file update of `upload()`'s catch:
`{ status: "error", error: createFileError(file, err) }`. -/
def catchSet (f : UFile) (m : String) : UFile → UFile :=
  fun g => { g with status := .error, errorInfo := some (createFileError f m) }

/-- The registry update applied by `upload()`'s catch:
`updateFile(file.id, { status: "error", error })`. -/
def catchUpdate (reg1 : List UFile) (f : UFile) (m : String) : List UFile :=
  updateById reg1 f.id (catchSet f m)

/-- The `for (const file of filesToUpload)` loop of `upload()`: each
`uploadSingleFile` throw is caught, the file is marked `error` with the wrapped
`FileError` and `file:error` is emitted, and the loop continues. -/
def uploadLoop (plugins : List PluginM) (storage : Option AdapterM) :
    List UFile → List UFile → List UFile × List Event × List AdapterCall
  | [], reg => (reg, [], [])
  | f :: rest, reg =>
    match (uploadSingleFile plugins storage reg f).2 with
    | none =>
      ((uploadLoop plugins storage rest (uploadSingleFile plugins storage reg f).1.1).1,
       (uploadSingleFile plugins storage reg f).1.2.1
         ++ (uploadLoop plugins storage rest (uploadSingleFile plugins storage reg f).1.1).2.1,
       (uploadSingleFile plugins storage reg f).1.2.2
         ++ (uploadLoop plugins storage rest (uploadSingleFile plugins storage reg f).1.1).2.2)
    | some m =>
      ((uploadLoop plugins storage rest
          (catchUpdate (uploadSingleFile plugins storage reg f).1.1 f m)).1,
       (uploadSingleFile plugins storage reg f).1.2.1
         ++ [Event.fileError f (.wrapped (createFileError f m))]
         ++ (uploadLoop plugins storage rest
              (catchUpdate (uploadSingleFile plugins storage reg f).1.1 f m)).2.1,
       (uploadSingleFile plugins storage reg f).1.2.2
         ++ (uploadLoop plugins storage rest
              (catchUpdate (uploadSingleFile plugins storage reg f).1.1 f m)).2.2)

/-- `upload()` from `useUploadKit/index.ts`: snapshot the `waiting` files, emit
`upload:start`, drive each snapshot file through `uploadSingleFile` (errors per
file, never aborting), then emit `upload:complete` with *all* files whose
status is `complete` in the final registry, and finally `files:uploaded` when
every file is complete and the latch is clear. -/
def uploadRun (plugins : List PluginM) (storage : Option AdapterM)
    (st : KitState) : KitState × List Event × List AdapterCall :=
  let snapshot := st.files.filter (fun f => f.status = UStatus.waiting)
  let (reg, evs, calls) := uploadLoop plugins storage snapshot st.files
  let completed := reg.filter (fun f => f.status = UStatus.complete)
  let evsAll := Event.uploadStart snapshot :: (evs ++ [Event.uploadComplete completed])
  if 0 < reg.length ∧ (∀ f ∈ reg, f.status = UStatus.complete) ∧
      st.hasEmittedFilesUploaded = false then
    (⟨reg, true⟩, evsAll ++ [Event.filesUploaded reg], calls)
  else
    (⟨reg, st.hasEmittedFilesUploaded⟩, evsAll, calls)

/-- `opts.deleteFromStorage` of `removeFile`, `always` being the default. -/
inductive DeleteOpt where
  | always
  | never
  | localOnly
deriving DecidableEq, Repr

/-- Result of a `removeFile` call; `logs` collects the `console.error` emitted
when the adapter's `remove` hook throws. -/
structure RemoveOutcome where
  registry : List UFile
  events : List Event
  calls : List AdapterCall
  logs : List String
deriving Repr

/-- `removeFile(fileId, removeOptions)` from `file-operations.ts`: look the file
up (no-op when absent); decide deletion per the option (`always` → yes, `never`
→ no, `local-only` → only for `source === "local"`); call the adapter's
`remove` hook only when deletion is decided, the file has a `remoteUrl`, and a
storage plugin with a `remove` hook exists; a hook throw is logged and
swallowed; finally filter the file out of the registry and emit `file:removed`.
(Object-URL cleanup is a browser side effect and is not modelled.) -/
def removeFileOp (storage : Option AdapterM) (registry : List UFile)
    (fid : String) (opt : DeleteOpt) : RemoveOutcome :=
  match registry.find? (fun f => f.id = fid) with
  | none => ⟨registry, [], [], []⟩
  | some file =>
    let shouldDelete : Bool := match opt with
      | .always => true
      | .never => false
      | .localOnly => file.source = USource.localSrc
    let (calls, logs) :=
      if shouldDelete ∧ file.remoteUrl.isSome then
        match storage with
        | some a =>
          match a.removeHook with
          | some h =>
            match h file with
            | .ok _ => ([AdapterCall.removeCall file], ([] : List String))
            | .error _ => ([AdapterCall.removeCall file], ["Storage plugin remove error"])
          | none => ([], [])
        | none => ([], [])
      else ([], [])
    ⟨registry.filter (fun f => f.id ≠ fid), [Event.fileRemoved file], calls, logs⟩

/-- An `InitialFileInput` entry: `{storageKey}`. -/
structure InitialFileInput where
  storageKey : Option String
deriving DecidableEq, Repr

/-- `String.prototype.split("/")` on the character list: always returns at
least one (possibly empty) segment, splitting at every slash. -/
def splitOnSlash : List Char → List (List Char)
  | [] => [[]]
  | c :: rest =>
    let r := splitOnSlash rest
    if c = '/' then [] :: r
    else
      match r with
      | [] => [[c]]
      | s :: ss => (c :: s) :: ss

/-- `storageKey.split("/").pop() || storageKey`: the key's last path segment,
falling back to the whole key when the last segment is empty. -/
def lastSegment (key : String) : String :=
  match ((splitOnSlash key.toList).map String.mk).getLast? with
  | some s => if s = "" then key else s
  | none => key

/-- The `RemoteUploadFile` literal built inside `resolveRemoteFiles`: fresh
generated `id`, `name` from the key's last segment, no data, `complete` at
100%, metadata copied from the adapter's `getRemoteFile` response with
`preview` falling back to `remoteUrl`, `source: "storage"`. -/
def mkRemoteFile (genId : String) (key : String) (meta : RemoteMeta) : UFile :=
  { id := genId
    name := lastSegment key
    size := meta.size
    mimeType := meta.mimeType
    status := .complete
    progressPct := 100
    hasData := false
    source := .storageSrc
    remoteUrl := some meta.remoteUrl
    storageKey := some key
    preview := some (meta.preview.getD meta.remoteUrl)
    thumbnail := none
    uploadResult := meta.uploadResult
    errorInfo := none
    metaExtension := none }

/-- The `Promise.all` body of `resolveRemoteFiles`: inputs without a
`storageKey` resolve to `null` and are filtered out; any `getRemoteFile`
rejection rejects the whole batch.  `gen i` supplies the i-th freshly
generated id. -/
def resolveAux (h : String → Except String RemoteMeta) (gen : Nat → String) :
    Nat → List InitialFileInput → Except String (List UFile)
  | _, [] => .ok []
  | i, inp :: rest =>
    match inp.storageKey with
    | none => resolveAux h gen i rest
    | some key =>
      match h key with
      | .error m => .error m
      | .ok meta =>
        match resolveAux h gen (i + 1) rest with
        | .error m => .error m
        | .ok fs => .ok (mkRemoteFile (gen i) key meta :: fs)

/-- `resolveRemoteFiles(initialFiles)` from `useUploadKit/index.ts`: requires a
storage plugin with a `getRemoteFile` hook, then resolves each keyed input into
a `RemoteUploadFile`. -/
def resolveRemoteFiles (storage : Option AdapterM) (gen : Nat → String)
    (inputs : List InitialFileInput) : Except String (List UFile) :=
  match storage with
  | none => .error "Storage plugin with getRemoteFile hook is required to resolve remote files"
  | some a =>
    match a.getRemoteHook with
    | none => .error "Storage plugin with getRemoteFile hook is required to resolve remote files"
    | some h => resolveAux h gen 0 inputs

/-- The `initialFiles` value as seen by `setupInitialFiles`:
`string | string[] | undefined`. -/
inductive IFValue where
  | undef
  | str (s : String)
  | arr (l : List String)
deriving DecidableEq, Repr

/-- JavaScript truthiness test `!value` on an `initialFiles` value:
`undefined` and the empty string are falsy; every array is truthy. -/
def IFValue.falsy : IFValue → Bool
  | .undef => true
  | .str s => s = ""
  | .arr _ => false

/-- `Array.isArray(value) ? value : [value]` (for a defined value). -/
def IFValue.paths : IFValue → List String
  | .undef => []
  | .str s => [s]
  | .arr l => l

/-- A value that makes `doInitialize` resolve: truthy, with a non-empty path
list all of whose entries are non-empty (`paths.length > 0 && paths.every(Boolean)`). -/
def IFValue.isTrigger (v : IFValue) : Bool :=
  !v.falsy && (decide (0 < v.paths.length) && v.paths.all (fun s => s ≠ ""))

/-- State of the initial-files protocol: the `isInitialized` one-shot latch,
the `isReady` flag, the registry, the number of times
`initializeExistingFiles` ran, and the emitted events. -/
structure InitState where
  isInitialized : Bool
  isReady : Bool
  files : List UFile
  resolutions : Nat
  events : List Event
deriving DecidableEq, Repr

/-- `doInitialize(value)` from `setupInitialFiles` in `utils.ts`: return early
when already initialized, when the value is falsy, or when files are present;
when the paths are non-empty and all truthy, set the latch, run
`initializeExistingFiles` (an oracle here: it either replaces the registry or
throws), set readiness and emit `initialFiles:loaded` / `initialFiles:error`;
otherwise just set readiness. -/
def doInitialize (resolve : List String → Except String (List UFile))
    (st : InitState) (v : IFValue) : InitState :=
  if st.isInitialized || v.falsy || decide (0 < st.files.length) then st
  else if decide (0 < v.paths.length) && v.paths.all (fun s => s ≠ "") then
    match resolve v.paths with
    | .ok resolved =>
      { isInitialized := true, isReady := true, files := resolved,
        resolutions := st.resolutions + 1,
        events := st.events ++ [Event.initialFilesLoaded resolved] }
    | .error m =>
      { st with isInitialized := true, isReady := true,
                resolutions := st.resolutions + 1,
                events := st.events ++ [Event.initialFilesError m] }
  else { st with isReady := true }

/-- The watch subscription on a reactive `initialFiles` source (immediate):
`doInitialize` runs on the initial value and then on every change, in order. -/
def runInitialFiles (resolve : List String → Except String (List UFile)) :
    InitState → List IFValue → InitState
  | st, [] => st
  | st, v :: rest => runInitialFiles resolve (doInitialize resolve st v) rest

/-- The manager's state when `setupInitialFiles` subscribes: latch clear, not
ready, empty registry. -/
def initState0 : InitState :=
  { isInitialized := false, isReady := false, files := [], resolutions := 0, events := [] }

/-- A `Partial<UploadFile>` patch: a present field overwrites the file's field
on shallow merge (`{...file, ...patch}`). -/
structure FilePatch where
  id : Option String := none
  name : Option String := none
  size : Option Nat := none
  mimeType : Option String := none
  status : Option UStatus := none
  progressPct : Option Nat := none
  hasData : Option Bool := none
  source : Option USource := none
  remoteUrl : Option (Option String) := none
  storageKey : Option (Option String) := none
  preview : Option (Option String) := none
  thumbnail : Option (Option ThumbnailInfo) := none
  uploadResult : Option (Option UploadResult) := none
  errorInfo : Option (Option FileError) := none
  metaExtension : Option (Option String) := none
deriving DecidableEq, Repr

/-- Shallow merge `{...file, ...patch}`. -/
def applyPatch (f : UFile) (p : FilePatch) : UFile :=
  { id := p.id.getD f.id
    name := p.name.getD f.name
    size := p.size.getD f.size
    mimeType := p.mimeType.getD f.mimeType
    status := p.status.getD f.status
    progressPct := p.progressPct.getD f.progressPct
    hasData := p.hasData.getD f.hasData
    source := p.source.getD f.source
    remoteUrl := p.remoteUrl.getD f.remoteUrl
    storageKey := p.storageKey.getD f.storageKey
    preview := p.preview.getD f.preview
    thumbnail := p.thumbnail.getD f.thumbnail
    uploadResult := p.uploadResult.getD f.uploadResult
    errorInfo := p.errorInfo.getD f.errorInfo
    metaExtension := p.metaExtension.getD f.metaExtension }

/-- `updateFile(fileId, updatedFile)` from `useUploadKit/index.ts`:
`files.value = files.value.map((file) => file.id === fileId ? {...file,
...updatedFile} : file)`.  It emits no event, hence the constant empty event
list. -/
def updateFile (registry : List UFile) (fid : String) (p : FilePatch) :
    List UFile × List Event :=
  (registry.map (fun f => if f.id = fid then applyPatch f p else f), [])

/-- Upload-hook invocations for a given file id within an adapter-call trace. -/
def countUploadCalls (calls : List AdapterCall) (fid : String) : Nat :=
  (calls.filter (fun c => match c with
    | .uploadCall g => g.id = fid
    | _ => false)).length

/-! ### Concrete instances used by counterexamples and witnesses -/

/-- A waiting 1000-byte local JPEG, as built by `addFile`. -/
def sampleLarge : UFile := mkLocalFile "t1" "jpg" "large.jpg" 1000 "image/jpeg"

/-- A waiting 100-byte local JPEG, as built by `addFile`. -/
def sampleSmall : UFile := mkLocalFile "t2" "jpg" "small.jpg" 100 "image/jpeg"

/-- The process hook of an image-compressor-style plugin applied to
`sampleLarge`: it returns a *new* file object with transformed id, media type
and size, exactly the shape of the object literal the bundled
`PluginImageCompressor` returns after a successful compression. -/
def compressorHookC2 : Hook := fun f _ =>
  .ok { f with id := "t1.webp", mimeType := "image/webp", size := 500,
               metaExtension := some "webp" }

/-- A plugin registering `compressorHookC2` at the `process` stage. -/
def compressorC2 : PluginM := { pid := "image-compressor", process := some compressorHookC2 }

/-- The transformed file `compressorHookC2` returns for `sampleLarge`. -/
def transformedC2 : UFile :=
  { sampleLarge with id := "t1.webp", mimeType := "image/webp", size := 500,
                     metaExtension := some "webp" }

/-- An adapter whose upload hook always succeeds with a fixed result. -/
def adapterC2 : AdapterM :=
  { uploadHook := some (fun _ => .ok { url := "https://x/f", storageKey := some "f" }) }

/-- Remote metadata as returned by a `getRemoteFile` oracle in examples. -/
def metaC7 : RemoteMeta :=
  { size := 2048, mimeType := "image/png", remoteUrl := "https://x/pic.jpg",
    preview := none, uploadResult := none }

/-- An adapter exposing only `getRemoteFile`, always answering `metaC7`. -/
def adapterC7 : AdapterM := { getRemoteHook := some (fun _ => .ok metaC7) }

/-- The fresh-id generator used in the C7 instance: the shape
`Date.now()-random` produces, never equal to a storage key. -/
def genC7 : Nat → String := fun _ => "1700000000000-abc"

/-- The remote file `resolveRemoteFiles` builds for key `uploads/pic.jpg`
under `adapterC7` and `genC7`. -/
def remoteFileC7 : UFile := mkRemoteFile "1700000000000-abc" "uploads/pic.jpg" metaC7

/-- A registry holding one already-complete remote file (e.g. loaded through
`initializeExistingFiles`), with the files-uploaded latch clear. -/
def stateC5 : KitState := ⟨[remoteFileC7], false⟩

/-- A remove hook that always fails (e.g. the backend answered HTTP 500). -/
def removeHookC8 : UFile → Except String Unit := fun _ => .error "HTTP 500"

/-- An adapter exposing only the failing `remove` hook. -/
def adapterC8 : AdapterM := { removeHook := some removeHookC8 }

/-- A registered remote file with id `r1` and a `remoteUrl`. -/
def remoteFileC8 : UFile := { remoteFileC7 with id := "r1" }

/-- A one-file registry for the `removeFile` witness. -/
def registryC8 : List UFile := [remoteFileC8]

/-- An `initializeExistingFiles` oracle that always succeeds with one file. -/
def resolveC6 : List String → Except String (List UFile) := fun _ => .ok [remoteFileC7]

/-- A reactive `initialFiles` history: first undefined, then two non-empty
values in succession. -/
def valuesC6 : List IFValue := [.undef, .arr ["a.jpg"], .arr ["b.jpg", "c.jpg"]]

/-- Inputs for the max-file-size batch scenario: sizes 100, 1000, 200 under a
500-byte limit. -/
def inputsC4 : List (String × String × Nat × String) :=
  [("t2", "small.jpg", 100, "image/jpeg"),
   ("t1", "large.jpg", 1000, "image/jpeg"),
   ("t3", "small2.jpg", 200, "image/jpeg")]

/-- Two adds against a max-files limit of 1. -/
def inputsC3 : List (String × String × Nat × String) :=
  [("t1", "a.jpg", 100, "image/jpeg"), ("t2", "b.jpg", 100, "image/jpeg")]

/-- A validator plugin whose validate hook always throws the raw value
`nope`. -/
def throwValC9 : PluginM :=
  { pid := "always-throws", validate := some (fun _ _ => .error "nope") }

/-- An always-succeeding adapter upload hook. -/
def uploadHookC1 : UFile → Except String UploadResult :=
  fun _ => .ok { url := "https://x/u", storageKey := none }

/-- An adapter exposing only `uploadHookC1`. -/
def adapterC1 : AdapterM := { uploadHook := some uploadHookC1 }

/-- An already-complete file sitting in the registry next to a waiting one. -/
def fileC1done : UFile := { sampleLarge with status := UStatus.complete }

/-- Registry with one waiting and one complete file, distinct ids. -/
def stateC1 : KitState := ⟨[sampleSmall, fileC1done], false⟩

/-- The invariant of the initial-files latch: while uninitialized nothing has
resolved and the registry is untouched; once initialized, exactly one
resolution ran, readiness is set, and a loaded or error event was emitted. -/
def InitInv (st : InitState) : Prop :=
  (st.isInitialized = false → st.files = [] ∧ st.resolutions = 0)
  ∧ (st.isInitialized = true →
      st.resolutions = 1 ∧ st.isReady = true
      ∧ ((∃ fs, Event.initialFilesLoaded fs ∈ st.events)
         ∨ (∃ m, Event.initialFilesError m ∈ st.events)))

/-! ### Lemmas about the plugin runner -/

/-- A successful stage run returns the input file unchanged (the source's
`callPluginHook` discards the hook's return value) and emits nothing. -/
theorem callPluginHook_ok {hook : Hook} {stage : Stage} {cur result : UFile}
    {ctx : List UFile} (h : callPluginHook hook stage cur ctx = .ok result) :
    result = cur := by
  unfold callPluginHook at h
  cases hf : hook cur ctx with
  | error e => rw [hf] at h; cases h
  | ok out => rw [hf] at h; cases h; rfl

theorem runStageAux_some {stage : Stage} {ctx : List UFile} :
    ∀ {ps : List PluginM} {cur r : UFile} {evs : List Event},
    runStageAux stage ctx ps cur = (some r, evs) → r = cur ∧ evs = [] := by
  intro ps
  induction ps with
  | nil =>
    intro cur r evs h
    simp only [runStageAux] at h
    injection h with h1 h2
    injection h1 with h1
    exact ⟨h1.symm, h2.symm⟩
  | cons p rest ih =>
    intro cur r evs h
    simp only [runStageAux] at h
    split at h
    · exact ih h
    · split at h
      · cases h
      · rename_i hook _ result hres
        have hrc := callPluginHook_ok hres
        subst hrc
        exact ih h

/-- A failed stage run emits exactly one `file:error` event, carrying the raw
thrown value and the (unchanged) current file. -/
theorem runStageAux_none {stage : Stage} {ctx : List UFile} :
    ∀ {ps : List PluginM} {cur : UFile} {evs : List Event},
    runStageAux stage ctx ps cur = (none, evs) →
    ∃ m, evs = [Event.fileError cur (.raw m)] := by
  intro ps
  induction ps with
  | nil =>
    intro cur evs h
    simp only [runStageAux] at h
    injection h with h1 h2
    injection h1
  | cons p rest ih =>
    intro cur evs h
    simp only [runStageAux] at h
    cases hh : p.hookFor stage with
    | none => simp only [hh] at h; exact ih h
    | some hook =>
      simp only [hh] at h
      cases hres : callPluginHook hook stage cur ctx with
      | error e =>
        simp only [hres] at h
        injection h with h1 h2
        exact ⟨e, h2.symm⟩
      | ok result =>
        simp only [hres] at h
        have hrc := callPluginHook_ok hres
        subst hrc
        exact ih h

/-- When a stage succeeds, every hook registered for that stage accepted the
(unchanged) input file against the context snapshot. -/
theorem runStageAux_hooks_ok {stage : Stage} {ctx : List UFile} :
    ∀ {ps : List PluginM} {cur : UFile} {r : Option UFile} {evs : List Event},
    runStageAux stage ctx ps cur = (r, evs) → r.isSome →
    ∀ p ∈ ps, ∀ h, p.hookFor stage = some h → ∃ out, h cur ctx = .ok out := by
  intro ps
  induction ps with
  | nil => intro cur r evs _ _ p hp; cases hp
  | cons q rest ih =>
    intro cur r evs hrun hsome p hp h hhook
    simp only [runStageAux] at hrun
    cases hh : q.hookFor stage with
    | none =>
      simp only [hh] at hrun
      cases hp with
      | head => rw [hhook] at hh; cases hh
      | tail _ hmem => exact ih hrun hsome p hmem h hhook
    | some hook =>
      simp only [hh] at hrun
      cases hres : callPluginHook hook stage cur ctx with
      | error e =>
        simp only [hres] at hrun
        injection hrun with h1 h2
        rw [← h1] at hsome
        simp at hsome
      | ok result =>
        simp only [hres] at hrun
        rw [callPluginHook_ok hres] at hrun
        cases hp with
        | head =>
          rw [hhook] at hh
          cases hh
          unfold callPluginHook at hres
          cases hf : h cur ctx with
          | error e => rw [hf] at hres; cases hres
          | ok out => exact ⟨out, rfl⟩
        | tail _ hmem => exact ih hrun hsome p hmem h hhook

/-- The stage runner never replaces the file: a successful run returns the
input. -/
theorem runPluginStage_some {plugins : List PluginM} {stage : Stage}
    {file r : UFile} {ctx : List UFile} {evs : List Event}
    (h : runPluginStage plugins stage file ctx = (some r, evs)) :
    r = file ∧ evs = [] :=
  runStageAux_some h

/-- A stage with no registered hooks succeeds immediately. -/
theorem runPluginStage_no_hooks {plugins : List PluginM} {stage : Stage}
    (h : ∀ p ∈ plugins, p.hookFor stage = none) (file : UFile) (ctx : List UFile) :
    runPluginStage plugins stage file ctx = (some file, []) := by
  unfold runPluginStage
  induction plugins with
  | nil => rfl
  | cons p rest ih =>
    simp only [runStageAux]
    rw [h p (List.mem_cons_self p rest)]
    exact ih (fun q hq => h q (List.mem_cons_of_mem p hq))

/-! ### C2 -/

/-- C2: the claim says `runPluginStage("process", f)` returns the possibly-new
file produced by a process hook and that this processed file is what reaches
the storage adapter's upload hook.  The code contradicts it (and its own
bundled image compressor, whose returned object carries the transformed bytes):
`callPluginHook` discards the hook's return value, so with a hook that returns
`transformedC2` the runner still yields the original `sampleLarge`, and
`uploadSingleFile` passes the original `sampleLarge` to the adapter's upload
hook. -/
theorem c2_process_result_discarded :
    compressorHookC2 sampleLarge [sampleLarge] = .ok transformedC2
    ∧ transformedC2 ≠ sampleLarge
    ∧ (runPluginStage [compressorC2] .process sampleLarge [sampleLarge]).1
        = some sampleLarge
    ∧ (uploadSingleFile [compressorC2] (some adapterC2) [sampleLarge] sampleLarge).1.2.2
        = [AdapterCall.uploadCall sampleLarge] := by
  refine ⟨rfl, by decide, rfl, rfl⟩

/-! ### C3 -/

/-- C3 counterexample: with the max-files validator enabled at limit 1,
adding two files leaves **two** tracked files in the registry — the rejected
file is pushed with `status = error` — so `files.length ≤ maxFiles` fails. -/
theorem c3_counterexample :
    ¬ ((addFile [validatorMaxFiles 1]
          (addFile [validatorMaxFiles 1] [] "t1" "a.jpg" 100 "image/jpeg").registry
          "t2" "b.jpg" 100 "image/jpeg").registry.length ≤ 1) := by
  decide

/-! ### C5 -/

/-- C5 counterexample: a registry holding one file that is already `complete`
before `upload()` is invoked (a remote initial file); the invocation's
`upload:complete` event carries that very file, although the claim says files
already complete beforehand are excluded. -/
theorem c5_counterexample :
    remoteFileC7 ∈ stateC5.files ∧ remoteFileC7.status = UStatus.complete
    ∧ Event.uploadComplete [remoteFileC7] ∈ (uploadRun [] none stateC5).2.1 := by
  refine ⟨List.mem_singleton_self _, rfl, ?_⟩
  have h : (uploadRun [] none stateC5).2.1
      = [Event.uploadStart [], Event.uploadComplete [remoteFileC7],
         Event.filesUploaded [remoteFileC7]] := rfl
  rw [h]
  simp

/-! ### C7 -/

/-- C7 counterexample: for storage key `uploads/pic.jpg`, the resolved remote
file's `id` is the freshly generated `1700000000000-abc`, which is neither the
storage key nor the name derived from its last path segment; the claim's
identity statement for `id` fails. -/
theorem c7_counterexample :
    resolveRemoteFiles (some adapterC7) genC7 [⟨some "uploads/pic.jpg"⟩]
        = .ok [remoteFileC7]
    ∧ remoteFileC7.id ≠ "uploads/pic.jpg"
    ∧ remoteFileC7.id ≠ lastSegment "uploads/pic.jpg" := by
  refine ⟨rfl, by decide, by decide⟩

/-! ### C10 -/

/-- C10: `updateFile(id, patch)` shallow-merges the patch into exactly the
files whose id matches, leaves every other file untouched, preserves the
registry's length and order (position `i` still describes the same file),
emits no event, and is the identity when no tracked file has the id. -/
theorem c10_updateFile_frame (registry : List UFile) (fid : String) (p : FilePatch) :
    (updateFile registry fid p).2 = []
    ∧ (updateFile registry fid p).1.length = registry.length
    ∧ (∀ i : Fin registry.length,
        (updateFile registry fid p).1.get ⟨i, by simpa [updateFile] using i.isLt⟩
          = if (registry.get i).id = fid then applyPatch (registry.get i) p
            else registry.get i)
    ∧ ((∀ f ∈ registry, f.id ≠ fid) → (updateFile registry fid p).1 = registry) := by
  refine ⟨rfl, by simp [updateFile], ?_, ?_⟩
  · intro i
    simp [updateFile, List.get_map]
  · intro hall
    show registry.map _ = registry
    conv_rhs => rw [← List.map_id registry]
    refine List.map_congr_left ?_
    intro f hf
    rw [if_neg (hall f hf)]
    rfl

/-- Witness for C10 at a concrete registry: patching `sampleLarge`'s status
changes only that entry, and patching an unknown id changes nothing. -/
theorem c10_updateFile_frame_witness :
    (updateFile [sampleSmall, sampleLarge] "t1.jpg"
        { status := some UStatus.error }).1.get ⟨0, by simp [updateFile]⟩ = sampleSmall
    ∧ (updateFile [sampleSmall, sampleLarge] "zzz" { status := some UStatus.error }).1
        = [sampleSmall, sampleLarge] := by
  constructor
  · have h := (c10_updateFile_frame [sampleSmall, sampleLarge] "t1.jpg"
      { status := some UStatus.error }).2.2.1 ⟨0, by decide⟩
    rw [h]
    decide
  · exact (c10_updateFile_frame [sampleSmall, sampleLarge] "zzz"
      { status := some UStatus.error }).2.2.2 (by decide)

/-! ### C8 -/

/-- Components of `removeFile` for a registered id with a remove-capable
adapter, for any option and any hook outcome. -/
theorem removeFileOp_found {a : AdapterM} {h : UFile → Except String Unit}
    (registry : List UFile) (fid : String) (opt : DeleteOpt) {file : UFile}
    (hhook : a.removeHook = some h)
    (hfind : registry.find? (fun f => f.id = fid) = some file) :
    (removeFileOp (some a) registry fid opt).registry
        = registry.filter (fun f => f.id ≠ fid)
    ∧ (removeFileOp (some a) registry fid opt).events = [Event.fileRemoved file]
    ∧ (removeFileOp (some a) registry fid opt).calls
        = (if ((match opt with
                | DeleteOpt.always => true
                | DeleteOpt.never => false
                | DeleteOpt.localOnly => decide (file.source = USource.localSrc)) : Bool)
              ∧ file.remoteUrl.isSome
           then [AdapterCall.removeCall file] else []) := by
  unfold removeFileOp
  simp only [hfind, hhook]
  cases hout : h file <;> simp [hout] <;> split <;> rfl

/-- C8: `removeFile` is a no-op for an unregistered id; for a registered file
(with a storage adapter exposing a `remove` hook) the hook is invoked exactly
when `deleteFromStorage` requires it — `always`: iff the file has a
`remoteUrl`; `never`: never; `local-only`: iff the file's source is local and
it has a `remoteUrl` — and whatever the hook's outcome, the file is removed
from the registry and `file:removed` is emitted (an adapter failure is
swallowed). -/
theorem c8_removeFile_spec :
    (∀ (storage : Option AdapterM) (registry : List UFile) (fid : String)
        (opt : DeleteOpt),
      registry.find? (fun f => f.id = fid) = none →
      removeFileOp storage registry fid opt = ⟨registry, [], [], []⟩)
    ∧ (∀ (a : AdapterM) (h : UFile → Except String Unit) (registry : List UFile)
        (fid : String) (opt : DeleteOpt) (file : UFile),
      a.removeHook = some h →
      registry.find? (fun f => f.id = fid) = some file →
      (removeFileOp (some a) registry fid opt).registry
          = registry.filter (fun f => f.id ≠ fid)
      ∧ (removeFileOp (some a) registry fid opt).events = [Event.fileRemoved file]
      ∧ (opt = .always →
          (removeFileOp (some a) registry fid opt).calls
            = (if file.remoteUrl.isSome then [AdapterCall.removeCall file] else []))
      ∧ (opt = .never → (removeFileOp (some a) registry fid opt).calls = [])
      ∧ (opt = .localOnly →
          (removeFileOp (some a) registry fid opt).calls
            = (if file.source = USource.localSrc ∧ file.remoteUrl.isSome
               then [AdapterCall.removeCall file] else []))) := by
  constructor
  · intro storage registry fid opt hfind
    unfold removeFileOp
    rw [hfind]
  · intro a h registry fid opt file hhook hfind
    obtain ⟨h1, h2, h3⟩ := removeFileOp_found registry fid opt hhook hfind
    refine ⟨h1, h2, ?_, ?_, ?_⟩
    · rintro rfl
      rw [h3]
      by_cases hr : file.remoteUrl.isSome <;> simp [hr]
    · rintro rfl
      rw [h3]
      simp
    · rintro rfl
      rw [h3]
      by_cases hs : file.source = USource.localSrc <;>
        by_cases hr : file.remoteUrl.isSome <;> simp [hs, hr]

/-- Witness for C8: unknown id is a no-op; with the default option the failing
remove hook is still invoked for a file with a `remoteUrl` and the file is
removed and announced anyway; with `never` the hook is not invoked. -/
theorem c8_removeFile_spec_witness :
    removeFileOp (some adapterC8) registryC8 "missing" DeleteOpt.always
        = ⟨registryC8, [], [], []⟩
    ∧ (removeFileOp (some adapterC8) registryC8 "r1" DeleteOpt.always).registry = []
    ∧ (removeFileOp (some adapterC8) registryC8 "r1" DeleteOpt.always).events
        = [Event.fileRemoved remoteFileC8]
    ∧ (removeFileOp (some adapterC8) registryC8 "r1" DeleteOpt.always).calls
        = [AdapterCall.removeCall remoteFileC8]
    ∧ (removeFileOp (some adapterC8) registryC8 "r1" DeleteOpt.never).calls = [] := by
  refine ⟨c8_removeFile_spec.1 (some adapterC8) registryC8 "missing" DeleteOpt.always rfl,
    ?_, ?_, ?_, ?_⟩
  · rw [(c8_removeFile_spec.2 adapterC8 removeHookC8 registryC8 "r1" DeleteOpt.always
      remoteFileC8 rfl rfl).1]
    rfl
  · exact (c8_removeFile_spec.2 adapterC8 removeHookC8 registryC8 "r1" DeleteOpt.always
      remoteFileC8 rfl rfl).2.1
  · rw [(c8_removeFile_spec.2 adapterC8 removeHookC8 registryC8 "r1" DeleteOpt.always
      remoteFileC8 rfl rfl).2.2.1 rfl]
    rfl
  · exact (c8_removeFile_spec.2 adapterC8 removeHookC8 registryC8 "r1" DeleteOpt.never
      remoteFileC8 rfl rfl).2.2.2.1 rfl

/-! ### C6 -/

/-- `doInitialize` on an already-initialized state is the identity (the
one-shot latch short-circuits). -/
theorem doInitialize_initialized {resolve : List String → Except String (List UFile)}
    {st : InitState} (h : st.isInitialized = true) (v : IFValue) :
    doInitialize resolve st v = st := by
  unfold doInitialize
  rw [h]
  simp

/-- `doInitialize` preserves the latch invariant. -/
theorem doInitialize_inv {resolve : List String → Except String (List UFile)}
    {st : InitState} (hinv : InitInv st) (v : IFValue) :
    InitInv (doInitialize resolve st v) := by
  unfold doInitialize
  by_cases hg : (st.isInitialized || v.falsy || decide (0 < st.files.length)) = true
  · rw [if_pos hg]; exact hinv
  · rw [if_neg hg]
    have hinitF : st.isInitialized = false := by
      cases hB : st.isInitialized
      · rfl
      · exact absurd (by rw [hB]; simp) hg
    have hres0 := (hinv.1 hinitF).2
    by_cases hb : (decide (0 < v.paths.length) && v.paths.all (fun s => s ≠ "")) = true
    · rw [if_pos hb]
      cases hr : resolve v.paths with
      | ok resolved =>
        constructor
        · intro hc; cases hc
        · intro _
          refine ⟨?_, rfl, .inl ⟨resolved, ?_⟩⟩
          · rw [hres0]
          · simp
      | error m =>
        constructor
        · intro hc; cases hc
        · intro _
          refine ⟨?_, rfl, .inr ⟨m, ?_⟩⟩
          · rw [hres0]
          · simp
    · rw [if_neg hb]
      constructor
      · intro _; exact hinv.1 hinitF
      · intro hc
        rw [show ({ st with isReady := true } : InitState).isInitialized
            = st.isInitialized from rfl] at hc
        rw [hc] at hinitF
        cases hinitF

/-- `runInitialFiles` preserves the latch invariant. -/
theorem runInitialFiles_inv {resolve : List String → Except String (List UFile)} :
    ∀ {vs : List IFValue} {st : InitState}, InitInv st →
    InitInv (runInitialFiles resolve st vs) := by
  intro vs
  induction vs with
  | nil => intro st h; exact h
  | cons v rest ih => intro st h; exact ih (doInitialize_inv h v)

/-- Once a value has triggered resolution, every later value is ignored; and
whenever the history contains a triggering value (or the latch is already
set), the run ends initialized. -/
theorem runInitialFiles_initialized {resolve : List String → Except String (List UFile)} :
    ∀ {vs : List IFValue} {st : InitState}, InitInv st →
    (st.isInitialized = true ∨ vs.any IFValue.isTrigger = true) →
    (runInitialFiles resolve st vs).isInitialized = true := by
  intro vs
  induction vs with
  | nil =>
    intro st _ h
    cases h with
    | inl h => exact h
    | inr h => simp at h
  | cons v rest ih =>
    intro st hinv h
    show (runInitialFiles resolve (doInitialize resolve st v) rest).isInitialized = true
    by_cases hinit : st.isInitialized = true
    · rw [doInitialize_initialized hinit v]
      exact ih hinv (.inl hinit)
    · have hinit' : st.isInitialized = false := by
        cases hb : st.isInitialized
        · rfl
        · exact absurd hb hinit
      by_cases htr : v.isTrigger = true
      · refine ih (doInitialize_inv hinv v) (.inl ?_)
        unfold doInitialize
        have hfiles := (hinv.1 hinit').1
        unfold IFValue.isTrigger at htr
        rw [Bool.and_eq_true] at htr
        obtain ⟨hnf, hinner⟩ := htr
        have hfalsy : v.falsy = false := by
          cases hfv : v.falsy
          · rfl
          · rw [hfv] at hnf; cases hnf
        rw [hinit', hfalsy, hfiles]
        rw [if_neg (by simp)]
        rw [if_pos hinner]
        cases hresv : resolve v.paths <;> rfl
      · refine ih (doInitialize_inv hinv v) (.inr ?_)
        cases h with
        | inl hl => exact absurd hl hinit
        | inr hr =>
          simp only [List.any_cons, Bool.or_eq_true] at hr
          cases hr with
          | inl hl => exact absurd hl htr
          | inr hr => exact hr

/-- C6: starting from the manager's pristine state, any history of reactive
`initialFiles` values resolves at most once; and as soon as some value
triggers resolution, exactly one resolution ran, the readiness flag is true
afterwards — whether the resolution succeeded or failed — and an
`initialFiles:loaded` or `initialFiles:error` event was emitted. -/
theorem c6_initialFiles_one_shot (resolve : List String → Except String (List UFile))
    (vs : List IFValue) :
    (runInitialFiles resolve initState0 vs).resolutions ≤ 1
    ∧ (vs.any IFValue.isTrigger = true →
        (runInitialFiles resolve initState0 vs).resolutions = 1
        ∧ (runInitialFiles resolve initState0 vs).isReady = true
        ∧ ((∃ fs, Event.initialFilesLoaded fs ∈ (runInitialFiles resolve initState0 vs).events)
           ∨ (∃ m, Event.initialFilesError m ∈ (runInitialFiles resolve initState0 vs).events))) := by
  have hinv0 : InitInv initState0 := by
    constructor
    · intro _; exact ⟨rfl, rfl⟩
    · intro hc; cases hc
  have hfin := @runInitialFiles_inv resolve vs initState0 hinv0
  constructor
  · cases hb : (runInitialFiles resolve initState0 vs).isInitialized
    · rw [(hfin.1 hb).2]
      exact Nat.zero_le 1
    · rw [(hfin.2 hb).1]
  · intro htr
    have hinit := @runInitialFiles_initialized resolve vs initState0 hinv0 (.inr htr)
    exact hfin.2 hinit

/-- Witness for C6 at a concrete reactive history with two successive
non-empty values: resolution runs exactly once and readiness is set. -/
theorem c6_initialFiles_one_shot_witness :
    (runInitialFiles resolveC6 initState0 valuesC6).resolutions ≤ 1
    ∧ (runInitialFiles resolveC6 initState0 valuesC6).resolutions = 1
    ∧ (runInitialFiles resolveC6 initState0 valuesC6).isReady = true := by
  obtain ⟨h1, h2⟩ := c6_initialFiles_one_shot resolveC6 valuesC6
  have h3 := h2 (by decide)
  exact ⟨h1, h3.1, h3.2.1⟩

/-! ### C7 (amended) -/

/-- Identity facts for every file produced by the `Promise.all` body of
`resolveRemoteFiles`, for any starting index of the fresh-id stream. -/
theorem resolveAux_spec {h : String → Except String RemoteMeta} {gen : Nat → String} :
    ∀ {i : Nat} {inputs : List InitialFileInput} {out : List UFile},
    resolveAux h gen i inputs = .ok out →
    ∀ f ∈ out, f.source = USource.storageSrc ∧ f.status = UStatus.complete
      ∧ f.progressPct = 100
      ∧ ∃ k, f.storageKey = some k ∧ f.name = lastSegment k ∧ ∃ j, f.id = gen j := by
  intro i inputs
  induction inputs generalizing i with
  | nil =>
    intro out hres f hf
    simp only [resolveAux] at hres
    cases hres
    cases hf
  | cons inp rest ih =>
    intro out hres f hf
    simp only [resolveAux] at hres
    cases hk : inp.storageKey with
    | none =>
      simp only [hk] at hres
      exact ih hres f hf
    | some key =>
      simp only [hk] at hres
      cases hm : h key with
      | error m => simp only [hm] at hres; cases hres
      | ok meta =>
        simp only [hm] at hres
        cases hrest : resolveAux h gen (i + 1) rest with
        | error m => simp only [hrest] at hres; cases hres
        | ok fs =>
          simp only [hrest] at hres
          cases hres
          cases hf with
          | head => exact ⟨rfl, rfl, rfl, key, rfl, rfl, i, rfl⟩
          | tail _ hmem => exact ih hrest f hmem

/-- C7 (amended): every remote file produced by `resolveRemoteFiles` carries
`source = storage`, `status = complete`, `progress.percentage = 100`, its
`storageKey` field holds the storage key, and its *name* (not its id) is
derived from the key's last path segment; the id is a freshly generated
identifier from the id stream. -/
theorem c7_remote_file_identity (storage : Option AdapterM) (gen : Nat → String)
    (inputs : List InitialFileInput) (out : List UFile)
    (hres : resolveRemoteFiles storage gen inputs = .ok out) :
    ∀ f ∈ out, f.source = USource.storageSrc ∧ f.status = UStatus.complete
      ∧ f.progressPct = 100
      ∧ ∃ k, f.storageKey = some k ∧ f.name = lastSegment k ∧ ∃ j, f.id = gen j := by
  unfold resolveRemoteFiles at hres
  cases storage with
  | none => cases hres
  | some a =>
    cases hh : a.getRemoteHook with
    | none => simp only [hh] at hres; cases hres
    | some h =>
      simp only [hh] at hres
      exact resolveAux_spec hres

/-- Witness for C7 (amended) at key `uploads/pic.jpg`. -/
theorem c7_remote_file_identity_witness :
    remoteFileC7.source = USource.storageSrc ∧ remoteFileC7.status = UStatus.complete
    ∧ remoteFileC7.progressPct = 100
    ∧ ∃ k, remoteFileC7.storageKey = some k ∧ remoteFileC7.name = lastSegment k
        ∧ ∃ j, remoteFileC7.id = genC7 j :=
  c7_remote_file_identity (some adapterC7) genC7 [⟨some "uploads/pic.jpg"⟩]
    [remoteFileC7] rfl remoteFileC7 (List.mem_singleton_self _)

/-! ### C3 (amended) -/

/-- Appending a file with `status = error` does not change the non-error
count; appending any other file raises it by one. -/
theorem nonErrorCount_append (l : List UFile) (x : UFile) :
    nonErrorCount (l ++ [x])
      = nonErrorCount l + (if x.status ≠ UStatus.error then 1 else 0) := by
  unfold nonErrorCount
  rw [List.filter_append]
  by_cases hx : x.status ≠ UStatus.error <;> simp [hx]

/-- The non-error count never exceeds the registry length. -/
theorem nonErrorCount_le_length (l : List UFile) : nonErrorCount l ≤ l.length :=
  List.length_filter_le _ l

/-- A single `addFile` preserves `nonErrorCount ≤ N` when the enabled
max-files validate hook for limit `N` is among the plugins: a successful
admission implies the hook accepted, i.e. the registry was shorter than `N`
at validation time; a rejected admission only appends an error-status file. -/
theorem addFile_nonError_le {plugins : List PluginM} {N : Nat}
    (hmem : ∃ p ∈ plugins, p.validate = some (maxFilesHook N))
    {registry : List UFile} (hcnt : nonErrorCount registry ≤ N)
    (genId name : String) (size : Nat) (mime : String) :
    nonErrorCount (addFile plugins registry genId name size mime).registry ≤ N := by
  unfold addFile
  cases hext : getExtension name with
  | error e => exact hcnt
  | ok ext =>
    cases hval : runPluginStage plugins .validate (mkLocalFile genId ext name size mime)
        registry with
    | mk o evs =>
      cases o with
      | none =>
        simp only [hval]
        rw [nonErrorCount_append, if_neg (not_not.mpr rfl)]
        simpa using hcnt
      | some v =>
        have hv := runPluginStage_some hval
        obtain ⟨rfl, rfl⟩ := hv
        cases hpre : runPluginStage plugins .preprocess (mkLocalFile genId ext name size mime)
            registry with
        | mk po pevs =>
          simp only [hval, hpre]
          rw [nonErrorCount_append]
          have hlt : registry.length < N := by
            obtain ⟨p, hp, hpv⟩ := hmem
            obtain ⟨out, hout⟩ := runStageAux_hooks_ok hval (by simp) p hp
              (maxFilesHook N) hpv
            unfold maxFilesHook at hout
            by_cases hlen : registry.length < N
            · exact hlen
            · rw [if_neg hlen] at hout; cases hout
          have hadd : (po.getD (mkLocalFile genId ext name size mime)).status
              = UStatus.waiting := by
            cases po with
            | none => rfl
            | some r =>
              obtain ⟨rfl, _⟩ := runPluginStage_some hpre
              rfl
          rw [if_pos (by rw [hadd]; exact fun hc => by cases hc)]
          calc nonErrorCount registry + 1 ≤ registry.length + 1 :=
                Nat.add_le_add_right (nonErrorCount_le_length registry) 1
            _ ≤ N := hlt

/-- C3 (amended): the claim's bound `files.length ≤ maxFiles` fails because a
rejected file is still pushed with `status = error`; what the max-files
validator does guarantee is that the number of *non-error* files never exceeds
the limit: starting from a registry of at most `N` files, after any sequence
of sequential adds the count of files whose status is not `error` is at most
`N`. -/
theorem c3_max_files_invariant (plugins : List PluginM) (N : Nat)
    (registry : List UFile) (inputs : List (String × String × Nat × String))
    (hmem : ∃ p ∈ plugins, p.validate = some (maxFilesHook N))
    (hlen : registry.length ≤ N) :
    nonErrorCount (addFiles plugins registry inputs).registry ≤ N := by
  have hcnt : nonErrorCount registry ≤ N :=
    le_trans (nonErrorCount_le_length registry) hlen
  clear hlen
  induction inputs generalizing registry with
  | nil => exact hcnt
  | cons t rest ih =>
    obtain ⟨genId, name, size, mime⟩ := t
    exact ih _ (addFile_nonError_le hmem hcnt genId name size mime)

/-- Witness for C3 (amended): the two-add scenario with limit 1 keeps a single
non-error file even though the registry holds two entries. -/
theorem c3_max_files_invariant_witness :
    nonErrorCount (addFiles [validatorMaxFiles 1] [] inputsC3).registry ≤ 1 :=
  c3_max_files_invariant [validatorMaxFiles 1] 1 [] inputsC3
    ⟨validatorMaxFiles 1, List.mem_singleton_self _, rfl⟩ (by decide)

/-! ### C4 -/

/-- An `addFile` whose name has a derivable extension grows the registry by
exactly one entry (success pushes the admitted file; a validator throw pushes
the error-status file); a name without extension leaves it unchanged. -/
theorem addFile_length (plugins : List PluginM) (registry : List UFile)
    (genId name : String) (size : Nat) (mime : String) :
    (addFile plugins registry genId name size mime).registry.length
      = registry.length + (if (getExtension name).isOk then 1 else 0) := by
  unfold addFile
  cases hext : getExtension name with
  | error e => simp [hext, Except.isOk, Except.toBool]
  | ok ext =>
    cases hval : runPluginStage plugins .validate (mkLocalFile genId ext name size mime)
        registry with
    | mk o evs =>
      cases o with
      | none => simp [hext, hval, Except.isOk, Except.toBool]
      | some v =>
        cases hpre : runPluginStage plugins .preprocess v registry with
        | mk po pevs => simp [hext, hval, hpre, Except.isOk, Except.toBool]

/-- A fulfilled `addFile` returns the validated file, which is the originally
built `waiting` file. -/
theorem addFile_ok_status {plugins : List PluginM} {registry : List UFile}
    {genId name : String} {size : Nat} {mime : String} {f : UFile}
    (h : (addFile plugins registry genId name size mime).result = .ok f) :
    f.status = UStatus.waiting := by
  unfold addFile at h
  cases hext : getExtension name with
  | error e => simp only [hext] at h; cases h
  | ok ext =>
    simp only [hext] at h
    cases hval : runPluginStage plugins .validate (mkLocalFile genId ext name size mime)
        registry with
    | mk o evs =>
      simp only [hval] at h
      cases o with
      | none => cases h
      | some v =>
        obtain ⟨rfl, rfl⟩ := runPluginStage_some hval
        cases hpre : runPluginStage plugins .preprocess (mkLocalFile genId ext name size mime)
            registry with
        | mk po pevs =>
          simp only [hpre] at h
          cases h
          rfl

/-- C4: when a validate hook throws, `addFile` rethrows to its caller while
also pushing the file with `status = error` and the wrapped `FileError` and
emitting `file:error`; and `addFiles` never aborts the batch — every input
with a derivable extension still contributes exactly one registry entry, and
the returned (admitted) files are the `waiting` admissions only. -/
theorem c4_validate_failure_handling :
    (∀ (plugins : List PluginM) (registry : List UFile) (genId name : String)
        (size : Nat) (mime ext : String),
      getExtension name = .ok ext →
      (runPluginStage plugins .validate (mkLocalFile genId ext name size mime)
          registry).1 = none →
      (addFile plugins registry genId name size mime).result
          = .error ("File validation failed for " ++ name)
      ∧ (addFile plugins registry genId name size mime).registry
          = registry ++ [{ mkLocalFile genId ext name size mime with
              status := UStatus.error,
              errorInfo := some (createFileError (mkLocalFile genId ext name size mime)
                ("File validation failed for " ++ name)) }]
      ∧ Event.fileError
            { mkLocalFile genId ext name size mime with
              status := UStatus.error,
              errorInfo := some (createFileError (mkLocalFile genId ext name size mime)
                ("File validation failed for " ++ name)) }
            (.wrapped (createFileError (mkLocalFile genId ext name size mime)
                ("File validation failed for " ++ name)))
          ∈ (addFile plugins registry genId name size mime).events)
    ∧ (∀ (plugins : List PluginM) (registry : List UFile)
        (inputs : List (String × String × Nat × String)),
      (addFiles plugins registry inputs).registry.length
        = registry.length
          + (inputs.filter (fun t => (getExtension t.2.1).isOk)).length
      ∧ ∀ f ∈ (addFiles plugins registry inputs).admitted,
          f.status = UStatus.waiting) := by
  constructor
  · intro plugins registry genId name size mime ext hext hval
    unfold addFile
    cases hval2 : runPluginStage plugins .validate (mkLocalFile genId ext name size mime)
        registry with
    | mk o evs =>
      rw [hval2] at hval
      cases o with
      | none => refine ⟨?_, ?_, ?_⟩ <;> simp [hext, hval2]
      | some v => cases hval
  · intro plugins registry inputs
    induction inputs generalizing registry with
    | nil => exact ⟨by simp [addFiles], by intro f hf; cases hf⟩
    | cons t rest ih =>
      obtain ⟨genId, name, size, mime⟩ := t
      constructor
      · show (addFiles plugins (addFile plugins registry genId name size mime).registry
            rest).registry.length = _
        rw [(ih _).1, addFile_length]
        cases hext : (getExtension name).isOk <;>
          simp [List.filter_cons, hext, Nat.add_comm, Nat.add_assoc, Nat.add_left_comm]
      · intro f hf
        show f.status = UStatus.waiting
        have : f ∈ (match (addFile plugins registry genId name size mime).result with
            | .ok g => g :: (addFiles plugins
                (addFile plugins registry genId name size mime).registry rest).admitted
            | .error _ => (addFiles plugins
                (addFile plugins registry genId name size mime).registry rest).admitted) := hf
        cases hres : (addFile plugins registry genId name size mime).result with
        | ok g =>
          rw [hres] at this
          cases this with
          | head => exact addFile_ok_status hres
          | tail _ hmem => exact (ih _).2 f hmem
        | error e =>
          rw [hres] at this
          exact (ih _).2 f this

/-- Witness for C4: the 100/1000/200-byte batch under a 500-byte limit — the
oversized add rethrows, lands in the registry as an error-status entry with a
`file:error` emission, and the batch still returns only the two admitted
files. -/
theorem c4_validate_failure_handling_witness :
    (addFile [validatorMaxFileSize 500]
        (addFile [validatorMaxFileSize 500] [] "t2" "small.jpg" 100 "image/jpeg").registry
        "t1" "large.jpg" 1000 "image/jpeg").result
      = .error ("File validation failed for large.jpg")
    ∧ (addFiles [validatorMaxFileSize 500] [] inputsC4).registry.length = 3
    ∧ ∀ f ∈ (addFiles [validatorMaxFileSize 500] [] inputsC4).admitted,
        f.status = UStatus.waiting := by
  refine ⟨?_, ?_, (c4_validate_failure_handling.2 [validatorMaxFileSize 500] [] inputsC4).2⟩
  · exact (c4_validate_failure_handling.1 [validatorMaxFileSize 500]
      (addFile [validatorMaxFileSize 500] [] "t2" "small.jpg" 100 "image/jpeg").registry
      "t1" "large.jpg" 1000 "image/jpeg" "jpg" (by rfl) (by rfl)).1
  · rw [(c4_validate_failure_handling.2 [validatorMaxFileSize 500] [] inputsC4).1]
    rfl

/-! ### C9 -/

/-- C9: an `addFile` whose validate stage throws emits `file:error` exactly
twice before rethrowing — first from the plugin runner's catch with the raw
thrown value and the pre-admission file, then from `addFile`'s catch with the
wrapped `FileError` and the error-status file. -/
theorem c9_file_error_emitted_twice (plugins : List PluginM) (registry : List UFile)
    (genId name : String) (size : Nat) (mime ext : String)
    (hext : getExtension name = .ok ext)
    (hval : (runPluginStage plugins .validate (mkLocalFile genId ext name size mime)
        registry).1 = none) :
    (∃ m, (addFile plugins registry genId name size mime).events
      = [Event.fileError (mkLocalFile genId ext name size mime) (.raw m),
         Event.fileError
           { mkLocalFile genId ext name size mime with
             status := UStatus.error,
             errorInfo := some (createFileError (mkLocalFile genId ext name size mime)
               ("File validation failed for " ++ name)) }
           (.wrapped (createFileError (mkLocalFile genId ext name size mime)
             ("File validation failed for " ++ name)))])
    ∧ (addFile plugins registry genId name size mime).result
        = .error ("File validation failed for " ++ name) := by
  unfold addFile
  cases hval2 : runPluginStage plugins .validate (mkLocalFile genId ext name size mime)
      registry with
  | mk o evs =>
    rw [hval2] at hval
    cases o with
    | none =>
      obtain ⟨m, hm⟩ := runStageAux_none hval2
      subst hm
      refine ⟨⟨m, ?_⟩, ?_⟩ <;> simp [hext, hval2]
    | some v => cases hval

/-- Witness for C9: a validator that throws the raw value `nope` produces
exactly two `file:error` emissions and the rethrow. -/
theorem c9_file_error_emitted_twice_witness :
    (addFile [throwValC9] [] "t1" "a.jpg" 100 "image/jpeg").events.length = 2
    ∧ (addFile [throwValC9] [] "t1" "a.jpg" 100 "image/jpeg").result
        = .error ("File validation failed for a.jpg") := by
  obtain ⟨⟨m, hev⟩, hres⟩ := c9_file_error_emitted_twice [throwValC9] [] "t1" "a.jpg"
    100 "image/jpeg" "jpg" (by rfl) (by rfl)
  rw [hev]
  exact ⟨rfl, hres⟩

/-! ### Registry update lemmas for the upload path -/

/-- Two successive by-id updates with an id-preserving first step compose. -/
theorem updateById_comp (reg : List UFile) (fid : String) (u1 u2 : UFile → UFile)
    (h : ∀ y, (u1 y).id = y.id) :
    updateById (updateById reg fid u1) fid u2
      = updateById reg fid (fun y => u2 (u1 y)) := by
  unfold updateById
  rw [List.map_map]
  refine List.map_congr_left ?_
  intro y _
  by_cases hy : y.id = fid
  · simp [Function.comp, hy, h y]
  · simp [Function.comp, hy]

/-- A file whose id differs from the updated one survives the update. -/
theorem mem_updateById_of_ne {reg : List UFile} {g : UFile} (hg : g ∈ reg)
    (fid : String) (hne : g.id ≠ fid) (u : UFile → UFile) :
    g ∈ updateById reg fid u := by
  unfold updateById
  refine List.mem_map.mpr ⟨g, hg, ?_⟩
  rw [if_neg hne]

/-- Every member of an updated registry is either an untouched original with a
different id, or the image of an original with the target id. -/
theorem mem_updateById_cases {reg : List UFile} {fid : String} {u : UFile → UFile}
    {x : UFile} (hx : x ∈ updateById reg fid u) :
    (∃ y, y ∈ reg ∧ y.id ≠ fid ∧ x = y) ∨ (∃ y, y ∈ reg ∧ y.id = fid ∧ x = u y) := by
  unfold updateById at hx
  obtain ⟨y, hy, hxy⟩ := List.mem_map.mp hx
  by_cases hid : y.id = fid
  · right
    exact ⟨y, hy, hid, by rw [← hxy, if_pos hid]⟩
  · left
    exact ⟨y, hy, hid, by rw [← hxy, if_neg hid]⟩

/-- Structure of one `uploadSingleFile` run: the registry change is a by-id
update of the snapshot file's id with an id-preserving function that always
moves the status off `waiting` (to `error`, `uploading` or `complete`), and
the adapter-call trace is empty or the single upload call carrying the
original snapshot file. -/
theorem uploadSingleFile_shape (plugins : List PluginM) (storage : Option AdapterM)
    (reg : List UFile) (f : UFile) :
    ∃ φ : UFile → UFile,
      (∀ y, (φ y).id = y.id ∧ (φ y).status ≠ UStatus.waiting)
      ∧ (uploadSingleFile plugins storage reg f).1.1 = updateById reg f.id φ
      ∧ ((uploadSingleFile plugins storage reg f).1.2.2 = []
         ∨ (uploadSingleFile plugins storage reg f).1.2.2 = [AdapterCall.uploadCall f]) := by
  unfold uploadSingleFile
  cases hps : runPluginStage plugins .process f reg with
  | mk o evs =>
    cases o with
    | none =>
      exact ⟨processFailSet f, fun y => ⟨rfl, fun hc => by cases hc⟩, rfl, .inl rfl⟩
    | some p =>
      obtain ⟨hpf, hevs⟩ := runPluginStage_some hps
      subst hpf
      subst hevs
      dsimp only
      rw [if_neg (not_not.mpr rfl)]
      cases storage with
      | none =>
        exact ⟨uploadingSet, fun y => ⟨rfl, fun hc => by cases hc⟩, rfl, .inl rfl⟩
      | some a =>
        dsimp only
        cases hu : a.uploadHook with
        | none =>
          exact ⟨uploadingSet, fun y => ⟨rfl, fun hc => by cases hc⟩, rfl, .inl rfl⟩
        | some u =>
          dsimp only
          cases hcall : u p with
          | error m =>
            exact ⟨uploadingSet, fun y => ⟨rfl, fun hc => by cases hc⟩, rfl, .inr rfl⟩
          | ok result =>
            refine ⟨fun y => completeSet result
                (previewOf (updateById reg p.id uploadingSet) p.id result.url)
                (thumbOf (updateById reg p.id uploadingSet) p.id) (uploadingSet y),
              fun y => ⟨rfl, fun hc => by cases hc⟩, ?_, .inr rfl⟩
            exact updateById_comp reg p.id uploadingSet
              (completeSet result
                (previewOf (updateById reg p.id uploadingSet) p.id result.url)
                (thumbOf (updateById reg p.id uploadingSet) p.id))
              (fun y => rfl)

/-- Every adapter call of an upload loop is an upload call carrying one of the
snapshot files. -/
theorem uploadLoop_calls_sub (plugins : List PluginM) (storage : Option AdapterM) :
    ∀ (S : List UFile) (reg : List UFile),
    ∀ c ∈ (uploadLoop plugins storage S reg).2.2, ∃ f ∈ S, c = AdapterCall.uploadCall f := by
  intro S
  induction S with
  | nil => intro reg c hc; cases hc
  | cons f rest ih =>
    intro reg c hc
    obtain ⟨φ, hφ, hreg, hcalls⟩ := uploadSingleFile_shape plugins storage reg f
    unfold uploadLoop at hc
    have hmem : c ∈ (uploadSingleFile plugins storage reg f).1.2.2
        ∨ (∃ reg1, c ∈ (uploadLoop plugins storage rest reg1).2.2) := by
      cases hthr : (uploadSingleFile plugins storage reg f).2 with
      | none =>
        simp only [hthr] at hc
        cases List.mem_append.mp hc with
        | inl hl => exact .inl hl
        | inr hr => exact .inr ⟨_, hr⟩
      | some m =>
        simp only [hthr] at hc
        cases List.mem_append.mp hc with
        | inl hl => exact .inl hl
        | inr hr => exact .inr ⟨_, hr⟩
    cases hmem with
    | inl hl =>
      cases hcalls with
      | inl hn => rw [hn] at hl; cases hl
      | inr hs =>
        rw [hs] at hl
        cases hl with
        | head => exact ⟨f, List.mem_cons_self f rest, rfl⟩
        | tail _ hm => cases hm
    | inr hr =>
      obtain ⟨reg1, hr1⟩ := hr
      obtain ⟨g, hg, hcg⟩ := ih reg1 c hr1
      exact ⟨g, List.mem_cons_of_mem f hg, hcg⟩

/-- A by-id update with a status-clearing function removes the updated id from
the set of possibly-waiting ids. -/
theorem updateById_no_new_waiting {A : List UFile} {fid : String} (ψ : UFile → UFile)
    (hψ : ∀ y, (ψ y).id = y.id ∧ (ψ y).status ≠ UStatus.waiting)
    {T : List String}
    (hA : ∀ g ∈ A, g.status = UStatus.waiting → g.id ∈ fid :: T) :
    ∀ g ∈ updateById A fid ψ, g.status = UStatus.waiting → g.id ∈ T := by
  intro g hg hw
  cases mem_updateById_cases hg with
  | inl h =>
    obtain ⟨y, hy, hne, hxy⟩ := h
    rw [hxy] at hw ⊢
    cases List.mem_cons.mp (hA y hy hw) with
    | inl heq => exact absurd heq hne
    | inr ht => exact ht
  | inr h =>
    obtain ⟨y, hy, hid, hxy⟩ := h
    rw [hxy] at hw
    exact absurd hw (hψ y).2

/-- After an upload loop that covers every waiting id of the registry, no file
is left in status `waiting`: each processed file's id is driven to `error`,
`uploading`-then-`complete`, or `error` via the catch. -/
theorem uploadLoop_no_waiting (plugins : List PluginM) (storage : Option AdapterM) :
    ∀ (S : List UFile) (reg : List UFile),
    (∀ g ∈ reg, g.status = UStatus.waiting → g.id ∈ S.map (fun f => f.id)) →
    ∀ g ∈ (uploadLoop plugins storage S reg).1, g.status ≠ UStatus.waiting := by
  intro S
  induction S with
  | nil =>
    intro reg hcov g hg hw
    cases hcov g hg hw
  | cons f rest ih =>
    intro reg hcov g hg hw
    obtain ⟨φ, hφ, hreg, _⟩ := uploadSingleFile_shape plugins storage reg f
    unfold uploadLoop at hg
    cases hthr : (uploadSingleFile plugins storage reg f).2 with
    | none =>
      simp only [hthr] at hg
      refine ih _ ?_ g hg hw
      rw [hreg]
      exact updateById_no_new_waiting φ hφ hcov
    | some m =>
      simp only [hthr] at hg
      refine ih _ ?_ g hg hw
      unfold catchUpdate
      rw [hreg]
      refine updateById_no_new_waiting (catchSet f m)
        (fun y => ⟨rfl, fun hc => by cases hc⟩) ?_
      intro x hx hxw
      exact List.mem_cons_of_mem _ (updateById_no_new_waiting φ hφ hcov x hx hxw)

/-- A registry entry whose id the upload loop never touches survives the loop
unchanged. -/
theorem uploadLoop_preserves (plugins : List PluginM) (storage : Option AdapterM) :
    ∀ (S : List UFile) (reg : List UFile) (g : UFile), g ∈ reg →
    g.id ∉ S.map (fun f => f.id) → g ∈ (uploadLoop plugins storage S reg).1 := by
  intro S
  induction S with
  | nil => intro reg g hg _; exact hg
  | cons f rest ih =>
    intro reg g hg hni
    have hne : g.id ≠ f.id := fun hc => hni (by rw [List.map_cons]; exact hc ▸ List.mem_cons_self _ _)
    have hni' : g.id ∉ rest.map (fun f => f.id) := fun hc =>
      hni (by rw [List.map_cons]; exact List.mem_cons_of_mem _ hc)
    obtain ⟨φ, hφ, hreg, _⟩ := uploadSingleFile_shape plugins storage reg f
    unfold uploadLoop
    cases hthr : (uploadSingleFile plugins storage reg f).2 with
    | none =>
      simp only [hthr]
      refine ih _ g ?_ hni'
      rw [hreg]
      exact mem_updateById_of_ne hg f.id hne φ
    | some m =>
      simp only [hthr]
      refine ih _ g ?_ hni'
      unfold catchUpdate
      rw [hreg]
      exact mem_updateById_of_ne (mem_updateById_of_ne hg f.id hne φ) f.id hne _

/-- With no process hooks and an adapter exposing an upload hook, every
`uploadSingleFile` performs exactly one adapter call, carrying the snapshot
file. -/
theorem uploadSingleFile_calls_noproc {plugins : List PluginM}
    (hnp : ∀ p ∈ plugins, p.process = none) {a : AdapterM}
    {u : UFile → Except String UploadResult} (hu : a.uploadHook = some u)
    (reg : List UFile) (f : UFile) :
    (uploadSingleFile plugins (some a) reg f).1.2.2 = [AdapterCall.uploadCall f] := by
  have hps : runPluginStage plugins .process f reg = (some f, []) :=
    runPluginStage_no_hooks
      (fun p hp => show p.hookFor Stage.process = none from hnp p hp) f reg
  unfold uploadSingleFile
  rw [hps]
  dsimp only
  rw [hu]
  dsimp only
  cases hcall : u f <;> rfl

/-- With no process hooks and an upload-capable adapter, the loop's adapter
trace is exactly one upload call per snapshot file, in order. -/
theorem uploadLoop_calls_noproc {plugins : List PluginM}
    (hnp : ∀ p ∈ plugins, p.process = none) {a : AdapterM}
    {u : UFile → Except String UploadResult} (hu : a.uploadHook = some u) :
    ∀ (S : List UFile) (reg : List UFile),
    (uploadLoop plugins (some a) S reg).2.2 = S.map AdapterCall.uploadCall := by
  intro S
  induction S with
  | nil => intro reg; rfl
  | cons f rest ih =>
    intro reg
    unfold uploadLoop
    cases hthr : (uploadSingleFile plugins (some a) reg f).2 with
    | none =>
      simp only [hthr]
      rw [uploadSingleFile_calls_noproc hnp hu, ih]
      rfl
    | some m =>
      simp only [hthr]
      rw [uploadSingleFile_calls_noproc hnp hu, ih]
      rfl

/-- Projections of `upload()`: the final registry and adapter trace come from
the loop over the waiting snapshot, and the `upload:complete` event carrying
the final registry's complete files is among the emitted events. -/
theorem uploadRun_parts (plugins : List PluginM) (storage : Option AdapterM)
    (st : KitState) :
    (uploadRun plugins storage st).1.files
      = (uploadLoop plugins storage
          (st.files.filter (fun f => f.status = UStatus.waiting)) st.files).1
    ∧ (uploadRun plugins storage st).2.2
      = (uploadLoop plugins storage
          (st.files.filter (fun f => f.status = UStatus.waiting)) st.files).2.2
    ∧ Event.uploadComplete
        ((uploadLoop plugins storage
            (st.files.filter (fun f => f.status = UStatus.waiting)) st.files).1.filter
          (fun f => f.status = UStatus.complete))
      ∈ (uploadRun plugins storage st).2.1 := by
  unfold uploadRun
  rcases hl : uploadLoop plugins storage
      (st.files.filter (fun f => f.status = UStatus.waiting)) st.files with ⟨reg, evs, calls⟩
  dsimp only
  split
  · rw [hl]
    exact ⟨rfl, rfl, by simp⟩
  · rw [hl]
    exact ⟨rfl, rfl, by simp⟩

/-- Counting upload calls distributes over trace concatenation. -/
theorem countUploadCalls_append (c1 c2 : List AdapterCall) (fid : String) :
    countUploadCalls (c1 ++ c2) fid
      = countUploadCalls c1 fid + countUploadCalls c2 fid := by
  unfold countUploadCalls
  rw [List.filter_append, List.length_append]

/-- Counting upload calls over a pure upload-call trace counts the files with
the given id. -/
theorem countUploadCalls_map (S : List UFile) (fid : String) :
    countUploadCalls (S.map AdapterCall.uploadCall) fid
      = (S.filter (fun g => g.id = fid)).length := by
  induction S with
  | nil => rfl
  | cons f rest ih =>
    unfold countUploadCalls at ih ⊢
    simp only [List.map_cons, List.filter_cons]
    by_cases h : f.id = fid
    · simp only [h]
      rw [if_pos (by simp), if_pos (by simp)]
      simp [ih]
    · rw [if_neg (by simp [h]), if_neg (by simp [h])]
      exact ih

/-- A duplicate-free list whose members all equal `x`, and which contains `x`,
is the singleton `[x]`. -/
theorem nodup_all_eq_singleton {l : List UFile} (hnd : l.Nodup) {x : UFile}
    (hx : x ∈ l) (hall : ∀ y ∈ l, y = x) : l = [x] := by
  cases l with
  | nil => cases hx
  | cons a t =>
    have ha : a = x := hall a (List.mem_cons_self a t)
    subst ha
    cases t with
    | nil => rfl
    | cons b t2 =>
      have hb : b = a := hall b (List.mem_cons_of_mem a (List.mem_cons_self b t2))
      exact absurd (hb ▸ List.mem_cons_self b t2) (List.nodup_cons.mp hnd).1

/-! ### C1 -/

/-- C1: `upload()` only drives files that are `waiting` at call time — for any
file in a non-`waiting` status when `upload()` is invoked, the storage
adapter's upload hook is never called with it; and (with an upload-capable
adapter, no process hooks, and unique ids) running `upload()` twice in
succession with no intervening admissions invokes the adapter's upload hook
exactly once per file that was `waiting` before the first call. -/
theorem c1_upload_idempotent :
    (∀ (plugins : List PluginM) (storage : Option AdapterM) (st : KitState),
      ∀ g ∈ st.files, g.status ≠ UStatus.waiting →
        AdapterCall.uploadCall g ∉ (uploadRun plugins storage st).2.2)
    ∧ (∀ (plugins : List PluginM) (a : AdapterM)
        (u : UFile → Except String UploadResult) (st : KitState),
      (∀ p ∈ plugins, p.process = none) → a.uploadHook = some u →
      (st.files.map (fun f => f.id)).Nodup →
      ∀ f ∈ st.files, f.status = UStatus.waiting →
        countUploadCalls
          ((uploadRun plugins (some a) st).2.2
            ++ (uploadRun plugins (some a) (uploadRun plugins (some a) st).1).2.2)
          f.id = 1) := by
  constructor
  · intro plugins storage st g hg hgs hmem
    rw [(uploadRun_parts plugins storage st).2.1] at hmem
    obtain ⟨f, hf, heq⟩ := uploadLoop_calls_sub plugins storage _ _ _ hmem
    have hfw : f.status = UStatus.waiting := by
      have := (List.mem_filter.mp hf).2
      simpa using this
    cases heq
    exact hgs hfw
  · intro plugins a u st hnp hu hnd f hf hw
    have hfilesnd : st.files.Nodup := List.Nodup.of_map _ hnd
    have hinj := List.inj_on_of_nodup_map hnd
    -- first run: one call per snapshot entry
    have htr1 : (uploadRun plugins (some a) st).2.2
        = (st.files.filter (fun g => g.status = UStatus.waiting)).map
            AdapterCall.uploadCall := by
      rw [(uploadRun_parts plugins (some a) st).2.1]
      exact uploadLoop_calls_noproc hnp hu _ _
    -- after the first run no file is waiting
    have hnowait : ∀ g ∈ (uploadRun plugins (some a) st).1.files,
        g.status ≠ UStatus.waiting := by
      rw [(uploadRun_parts plugins (some a) st).1]
      refine uploadLoop_no_waiting plugins (some a) _ _ ?_
      intro g hg hgw
      have hgsnap : g ∈ st.files.filter (fun x => x.status = UStatus.waiting) :=
        List.mem_filter.mpr ⟨hg, decide_eq_true hgw⟩
      exact List.mem_map_of_mem (fun x => x.id) hgsnap
    -- second run: empty snapshot, no calls
    have hsnap2 : (uploadRun plugins (some a) st).1.files.filter
        (fun g => g.status = UStatus.waiting) = [] := by
      rw [List.filter_eq_nil]
      intro g hg
      simp [hnowait g hg]
    have htr2 : (uploadRun plugins (some a) (uploadRun plugins (some a) st).1).2.2 = [] := by
      rw [(uploadRun_parts plugins (some a) (uploadRun plugins (some a) st).1).2.1, hsnap2]
      rfl
    rw [countUploadCalls_append, htr1, htr2, countUploadCalls_map]
    have hsingle : (st.files.filter (fun g => g.status = UStatus.waiting)).filter
        (fun g => g.id = f.id) = [f] := by
      refine nodup_all_eq_singleton ((hfilesnd.filter _).filter _) ?_ ?_
      · exact List.mem_filter.mpr ⟨List.mem_filter.mpr ⟨hf, by simp [hw]⟩, by simp⟩
      · intro y hy
        have hy1 := List.mem_filter.mp hy
        have hy2 := List.mem_filter.mp hy1.1
        exact hinj hy2.1 hf (by simpa using hy1.2)
    rw [hsingle]
    rfl

/-- Witness for C1: in a registry with one waiting and one complete file, the
complete file never reaches the upload hook, and across two successive
`upload()` runs the waiting file is uploaded exactly once. -/
theorem c1_upload_idempotent_witness :
    AdapterCall.uploadCall fileC1done ∉ (uploadRun [] (some adapterC1) stateC1).2.2
    ∧ countUploadCalls
        ((uploadRun [] (some adapterC1) stateC1).2.2
          ++ (uploadRun [] (some adapterC1) (uploadRun [] (some adapterC1) stateC1).1).2.2)
        sampleSmall.id = 1 := by
  constructor
  · exact c1_upload_idempotent.1 [] (some adapterC1) stateC1 fileC1done
      (List.mem_cons_of_mem _ (List.mem_cons_self _ _)) (by decide)
  · exact c1_upload_idempotent.2 [] adapterC1 uploadHookC1 stateC1
      (fun p hp => absurd hp (List.not_mem_nil p)) rfl (by decide)
      sampleSmall (List.mem_cons_self _ _) rfl

/-! ### C5 (amended) -/

/-- C5 (amended): `upload:complete` carries *all* files whose status is
`complete` at the end of the invocation — including files that were already
`complete` before the call (e.g. remote initial files), which survive the run
untouched and appear in the payload; only non-`complete` (e.g. `error`) files
are excluded. -/
theorem c5_upload_complete_payload (plugins : List PluginM)
    (storage : Option AdapterM) (st : KitState)
    (hnd : (st.files.map (fun f => f.id)).Nodup) :
    Event.uploadComplete ((uploadRun plugins storage st).1.files.filter
        (fun f => f.status = UStatus.complete)) ∈ (uploadRun plugins storage st).2.1
    ∧ ∀ f ∈ st.files, f.status = UStatus.complete →
        f ∈ (uploadRun plugins storage st).1.files.filter
          (fun f => f.status = UStatus.complete) := by
  have hinj := List.inj_on_of_nodup_map hnd
  constructor
  · rw [(uploadRun_parts plugins storage st).1]
    exact (uploadRun_parts plugins storage st).2.2
  · intro f hf hfc
    have hni : f.id ∉ (st.files.filter
        (fun g => g.status = UStatus.waiting)).map (fun g => g.id) := by
      intro hmem
      obtain ⟨w, hwmem, hwid⟩ := List.mem_map.mp hmem
      have hw := List.mem_filter.mp hwmem
      have : w = f := hinj hw.1 hf hwid
      rw [this] at hw
      rw [hfc] at hw
      simp at hw
    have hpres := uploadLoop_preserves plugins storage _ st.files f hf hni
    rw [(uploadRun_parts plugins storage st).1]
    exact List.mem_filter.mpr ⟨hpres, by simp [hfc]⟩

/-- Witness for C5 (amended): the pre-complete remote file survives `upload()`
and is carried in the `upload:complete` payload. -/
theorem c5_upload_complete_payload_witness :
    Event.uploadComplete ((uploadRun [] none stateC5).1.files.filter
        (fun f => f.status = UStatus.complete)) ∈ (uploadRun [] none stateC5).2.1
    ∧ remoteFileC7 ∈ (uploadRun [] none stateC5).1.files.filter
        (fun f => f.status = UStatus.complete) := by
  obtain ⟨h1, h2⟩ := c5_upload_complete_payload [] none stateC5 (by decide)
  exact ⟨h1, h2 remoteFileC7 (List.mem_cons_self _ _) rfl⟩

end UploadKit
